import Mathlib

/-!
Verification development for `packages/bazel/src/ng_package/packager.ts`.

The file first builds a small executable model of the JS string operations
and of the posix flavor of the Node `path` module (over `List Char`, so that
every definition reduces in the kernel), then embeds the packager
operations: the root classification of `writeFileFromInputPath`, the
`copyFile` placement with double-underscore unescaping, `getBundleName`,
`srcDirRelative`, `amendPackageJson`, the source-file loop of `main`
(error flag, root package name detection, writes), and the secondary
entry-point generation loop.  Theorems about the claims follow the
definitions.
-/

namespace Packager

/-! ### String model: JS string operations over `List Char` -/

/-- Rebuild a string from its characters. -/
def strOfChars (l : List Char) : String := String.mk l

/-- Contiguous-sublist check on character lists. -/
def charsInfixOf (sub : List Char) : List Char → Bool
  | [] => sub.isEmpty
  | c :: rest => List.isPrefixOf sub (c :: rest) || charsInfixOf sub rest

/-- JS `String.prototype.includes`: substring containment. -/
def strIncludes (s target : String) : Bool := charsInfixOf target.data s.data

/-- JS `String.prototype.startsWith`. -/
def strStartsWith (s p : String) : Bool := List.isPrefixOf p.data s.data

/-- JS `String.prototype.endsWith`. -/
def strEndsWith (s p : String) : Bool := List.isSuffixOf p.data s.data

/-- JS `String.prototype.substr` with one argument: the tail of the string
from character index `start` on (the strings handled by the packager are
ASCII, where JS UTF-16 indices and character indices agree). -/
def strSubstr (s : String) (start : Nat) : String := strOfChars (s.data.drop start)

/-- Worker for `strSplit`, driven by explicit fuel so that the recursion is
structural and reduces in the kernel.  The fuel starts at the length of the
list; since the separator is nonempty in every use in the packager, each
step consumes at least one character and the fuel never runs out. -/
def splitGo (sep : List Char) : Nat → List Char → List Char → List (List Char)
  | _, [], cur => [cur.reverse]
  | 0, l, cur => [cur.reverse ++ l]
  | fuel + 1, c :: rest, cur =>
    if List.isPrefixOf sep (c :: rest) then
      cur.reverse :: splitGo sep fuel ((c :: rest).drop sep.length) []
    else
      splitGo sep fuel rest (c :: cur)

/-- JS `String.prototype.split` with a nonempty string separator. -/
def strSplit (s sep : String) : List String :=
  (splitGo sep.data s.data.length s.data []).map strOfChars

/-- JS `Array.prototype.join`. -/
def joinWith (sep : String) (xs : List String) : String :=
  strOfChars (List.intercalate sep.data (xs.map String.data))

/-- `normalizeSeparators` (packager.ts lines 448-450): replace every
backslash by a forward slash.  The source performs a global
single-character regex replacement, which is exactly a character map. -/
def normalizeSeparators (p : String) : String :=
  strOfChars (p.data.map (fun c => if c = '\\' then '/' else c))

/-- Whether a string contains a backslash character. -/
def hasBackslash (s : String) : Bool := s.data.any (fun c => c == '\\')

/-! ### Posix path model (Node `path`, posix flavor, relative paths
resolved against a common implicit root) -/

/-- Split a path into its slash-separated segments. -/
def splitSegs (p : String) : List String := strSplit p "/"

/-- One step of posix path normalization: push a segment onto a reversed
segment stack, dropping empty and dot segments and resolving dot-dot
against the stack (keeping leading dot-dot segments of a relative path). -/
def pushSeg (stack : List String) (s : String) : List String :=
  if s = "" ∨ s = "." then stack
  else if s = ".." then
    match stack with
    | [] => [".."]
    | t :: rest => if t = ".." then ".." :: t :: rest else rest
  else s :: stack

/-- Posix path normalization on segments. -/
def normSegs (segs : List String) : List String := (segs.foldl pushSeg []).reverse

/-- Node `path.join` over a list of parts. -/
def pathJoinAll (ps : List String) : String :=
  let s := joinWith "/" (normSegs (List.flatten (ps.map splitSegs)))
  if s = "" then "." else s

/-- Node `path.join` with two parts. -/
def pathJoin (a b : String) : String := pathJoinAll [a, b]

/-- Node `path.join` with three parts. -/
def pathJoin3 (a b c : String) : String := pathJoinAll [a, b, c]

/-- Length of the common segment prefix of two normalized paths. -/
def commonPrefixLen : List String → List String → Nat
  | a :: as, b :: bs => if a = b then commonPrefixLen as bs + 1 else 0
  | _, _ => 0

/-- Node `path.relative` (posix), with both paths taken relative to the
same implicit root: drop the common segment ancestry and climb out of the
remaining `from` segments. -/
def pathRelative (fromPath toPath : String) : String :=
  let f := normSegs (splitSegs fromPath)
  let t := normSegs (splitSegs toPath)
  let c := commonPrefixLen f t
  joinWith "/" (List.replicate (f.length - c) ".." ++ t.drop c)

/-- Node `path.dirname` (posix). -/
def pathDirname (p : String) : String :=
  let segs := splitSegs p
  if segs.length ≤ 1 then "." else joinWith "/" segs.dropLast

/-- Node `path.basename` (posix). -/
def pathBasename (p : String) : String :=
  (((splitSegs p).filter (fun s => s != "")).getLast?).getD ""

/-! ### packager.ts: path relocation and copying -/

/-- Root classification performed by `writeFileFromInputPath` (packager.ts
lines 126-133): a path containing `binDir` is rooted there, else one
containing `genfilesDir`, and every remaining path falls through to
`srcDir`. -/
def classifyRoot (binDir genfilesDir srcDir inputPath : String) : String :=
  if strIncludes inputPath binDir then binDir
  else if strIncludes inputPath genfilesDir then genfilesDir
  else srcDir

/-- Output location computed by `writeFileFromInputPath` (packager.ts
line 135): join the output root with the input path taken relative to its
classified tree root. -/
def writeFileFromInputPath (out binDir genfilesDir srcDir inputPath : String) : String :=
  pathJoin out (pathRelative (classifyRoot binDir genfilesDir srcDir inputPath) inputPath)

/-- `newArray` (packager.ts lines 496-504) at the uses in `getBundleName`:
a list of `size` copies of `value`. -/
def newArray (size : Nat) (value : String) : List String := List.replicate size value

/-- `getBundleName` (packager.ts lines 383-397). -/
def getBundleName (packageName dir : String) : String :=
  let parts := strSplit packageName "/"
  let nameParts := if strStartsWith packageName "@" then parts.drop 1 else parts
  let joined := joinWith "/" (newArray (nameParts.length - 1) "..")
  let relativePath := if joined = "" then "." else joined
  let base :=
    if dir = "bundles" then joinWith "-" nameParts ++ ".umd"
    else if nameParts.length = 1 then nameParts.headD ""
    else joinWith "/" (nameParts.drop 1)
  joinWith "/" [relativePath, dir, base ++ ".js"]

/-- The normalized relative path computed inside `srcDirRelative`
(packager.ts lines 290-291), before the dot-slash prefixing. -/
def srcDirRelativeRaw (srcDir binDir fromPath file : String) : String :=
  normalizeSeparators
    (pathRelative (pathDirname fromPath) (pathJoin srcDir (pathRelative binDir file)))

/-- `srcDirRelative` (packager.ts lines 289-294). -/
def srcDirRelative (srcDir binDir fromPath file : String) : String :=
  let result := srcDirRelativeRaw srcDir binDir fromPath file
  if strStartsWith result ".." then result else "./" ++ result

/-- The `.mjs` to `.js` output-name remapping of `copyFile` (packager.ts
lines 299-300). -/
def mjsToJs (file : String) : String :=
  if strEndsWith file ".mjs" then strOfChars (file.data.take (file.data.length - 4)) ++ ".js"
  else file

/-- Filesystem effects of one `copyFile` call (packager.ts lines 296-318):
`outFile` is the `cp` destination; `moved` records the `mv` source and
target of the double-underscore unescaping step when it runs; `sed` records
the source-map reference rewrite (pattern, replacement) applied to the
relocated file when it is a `.js` file. -/
structure CopyResult where
  outFile : String
  moved : Option (String × String)
  sed : Option (String × String)
deriving DecidableEq

/-- `copyFile` (packager.ts lines 296-318). -/
def copyFile (file baseDir relative : String) : CopyResult :=
  let dir := pathJoin baseDir relative
  let outFile := pathJoin dir (pathBasename (mjsToJs file))
  if strIncludes outFile "__" then
    let outputPath := pathJoinAll (dir :: strSplit (pathBasename outFile) "__")
    ⟨outFile,
     some (pathJoin dir (pathBasename file), outputPath),
     if strEndsWith outFile ".js" then
       some (pathBasename file ++ ".map", pathBasename outputPath ++ ".map")
     else none⟩
  else
    ⟨outFile, none, none⟩

/-! ### packager.ts: manifests and module entries -/

/-- Parsed `package.json` content: a JSON object of string fields, in
insertion order with unique keys (the JS object model). -/
abbrev Manifest := List (String × String)

/-- JS property read on a manifest object. -/
def getField (m : Manifest) (k : String) : Option String :=
  (m.find? (fun p => p.1 == k)).map Prod.snd

/-- JS property assignment on a manifest object: overwrite in place when
the key exists, append otherwise. -/
def setField (m : Manifest) (k v : String) : Manifest :=
  if m.any (fun p => p.1 == k) then
    m.map (fun p => if p.1 == k then (k, v) else p)
  else m ++ [(k, v)]

/-- One module entry of the modules manifest (packager.ts lines 46-54 and
354): artifact paths plus the `guessedPaths` marker consulted by
`amendPackageJson`.  The `metadata` path is optional (packager.ts
lines 200-205). -/
structure ModuleData where
  index : String
  typings : String
  metadata : Option String
  guessedPaths : Bool
deriving DecidableEq

/-- The modules manifest: module name to artifact record, in key order. -/
abbrev ModulesManifest := List (String × ModuleData)

/-- JS property read on the modules manifest object. -/
def lookupModule (mm : ModulesManifest) (name : String) : Option ModuleData :=
  (mm.find? (fun p => p.1 == name)).map Prod.snd

/-- `knownFormatPackageJsonFields` (packager.ts lines 109-110). -/
def knownFormatPackageJsonFields : List String :=
  ["main", "fesm2015", "esm2015", "typings", "module", "es2015"]

/-- `hasExplicitFormatProperties` (packager.ts lines 400-403). -/
def hasExplicitFormatProperties (parsedPackage : Manifest) : Bool :=
  parsedPackage.any (fun p => knownFormatPackageJsonFields.contains p.1)

/-- Derived `esm2015_index` attached to each module entry by `main`
(packager.ts lines 195-198). -/
def esm2015Index (binDir : String) (d : ModuleData) : String :=
  pathJoin3 binDir "esm2015" (pathRelative binDir d.index)

/-- Result of `amendPackageJson`: the manifest object that gets serialized
(`JSON.stringify` of it is the returned string), and whether a diagnostic
warning was printed on the way. -/
structure AmendResult where
  content : Manifest
  warned : Bool
deriving DecidableEq

/-- `amendPackageJson` (packager.ts lines 328-379). -/
def amendPackageJson (mm : ModulesManifest) (srcDir binDir : String)
    (packageJson : String) (parsedPackage : Manifest)
    (isGeneratedPackageJson : Bool) : AmendResult :=
  let packageName := (getField parsedPackage "name").getD ""
  match lookupModule mm packageName with
  | none => ⟨parsedPackage, true⟩
  | some moduleData =>
    if moduleData.guessedPaths && !isGeneratedPackageJson
        && hasExplicitFormatProperties parsedPackage then
      ⟨parsedPackage, true⟩
    else
      let p1 := setField parsedPackage "main" (getBundleName packageName "bundles")
      let p2 := setField p1 "fesm2015" (getBundleName packageName "fesm2015")
      let p3 := setField p2 "esm2015"
        (srcDirRelative srcDir binDir packageJson (esm2015Index binDir moduleData))
      let p4 := setField p3 "typings"
        (srcDirRelative srcDir binDir packageJson moduleData.typings)
      let p5 := setField p4 "module" ((getField p4 "fesm2015").getD "")
      let p6 := setField p5 "es2015" ((getField p5 "fesm2015").getD "")
      ⟨p6, false⟩

/-- `createEntryPointPackageJson` (packager.ts lines 438-442). -/
def createEntryPointPackageJson (mm : ModulesManifest) (srcDir binDir : String)
    (dir entryPointPackageName : String) : AmendResult :=
  amendPackageJson mm srcDir binDir (pathJoin3 srcDir dir "package.json")
    [("name", entryPointPackageName)] true

/-! ### packager.ts: the source-file loop of `main` (lines 231-260) -/

/-- One entry of the `srcs` list together with the file it denotes:
`content` is the text read from disk, and `parsed` is its JSON parse,
which the loop consults only when the basename is `package.json`. -/
structure SrcFile where
  path : String
  content : String
  parsed : Manifest
deriving DecidableEq

/-- What `writeFileFromInputPath` receives as content for one source file:
either the raw file text, or the amended manifest object (the source
serializes it with `JSON.stringify`). -/
inductive FileContent where
  | raw (s : String)
  | manifest (m : Manifest)
deriving DecidableEq

/-- The root-package-name update of the loop (packager.ts line 255): the
JS condition `!rootPackageName || packageName.length < rootPackageName.length`,
where the truthiness test holds exactly for the empty string. -/
def rootStep (r n : String) : String :=
  if r = "" ∨ n.length < r.length then n else r

/-- Mutable state of the `srcs` loop: the deferred error flag, the
tracked root package name, the set of manifest names seen, and the
performed writes in order. -/
structure SrcsState where
  errorHasOccured : Bool
  rootPackageName : String
  packagesWithExistingPackageJson : List String
  writes : List (String × FileContent)
deriving DecidableEq

/-- One iteration of the `srcs` loop (packager.ts lines 235-260). -/
def processSrc (binDir genfilesDir srcDir : String) (mm : ModulesManifest)
    (st : SrcsState) (src : SrcFile) : SrcsState :=
  let err := st.errorHasOccured
    || (strIncludes src.path binDir || strIncludes src.path genfilesDir)
  if pathBasename src.path == "package.json" then
    let packageJson := src.parsed
    let amended := (amendPackageJson mm srcDir binDir src.path packageJson false).content
    let packageName := (getField packageJson "name").getD ""
    ⟨err,
     rootStep st.rootPackageName packageName,
     st.packagesWithExistingPackageJson ++ [packageName],
     st.writes ++ [(src.path, FileContent.manifest amended)]⟩
  else
    ⟨err, st.rootPackageName, st.packagesWithExistingPackageJson,
     st.writes ++ [(src.path, FileContent.raw src.content)]⟩

/-- Initial loop state (packager.ts lines 18, 232-233). -/
def initialSrcsState : SrcsState := ⟨false, "", [], []⟩

/-- The whole `srcs` loop. -/
def processSrcs (binDir genfilesDir srcDir : String) (mm : ModulesManifest)
    (srcs : List SrcFile) : SrcsState :=
  srcs.foldl (processSrc binDir genfilesDir srcDir mm) initialSrcsState

/-- Exit status of `main` (packager.ts line 282): the error flag is set
only inside the `srcs` loop. -/
def mainExitCode (binDir genfilesDir srcDir : String) (mm : ModulesManifest)
    (srcs : List SrcFile) : Nat :=
  if (processSrcs binDir genfilesDir srcDir mm srcs).errorHasOccured then 1 else 0

/-- The manifest names encountered by the loop, in source-list order. -/
def manifestNames (srcs : List SrcFile) : List String :=
  (srcs.filter (fun f => pathBasename f.path == "package.json")).map
    (fun f => (getField f.parsed "name").getD "")

/-! ### packager.ts: secondary entry-point generation (lines 263-280) -/

/-- JS truthiness of an optional string: absent and empty are falsy. -/
def truthy : Option String → Bool
  | none => false
  | some s => !(s == "")

/-- A file produced by the secondary-entry-point loop. -/
inductive GenFile where
  | metadataReexport (entryPointName packageName : String)
  | typingsReexport (entryPointName : String)
  | entryPointPackageJson (dir packageName : String)
deriving DecidableEq

/-- Files produced for one module entry by the loop body (packager.ts
lines 263-280): strip the root-package prefix with `substr`, skip when the
remainder is empty, emit a metadata re-export when the entry has a truthy
metadata path, always emit a typings re-export, and synthesize a manifest
when none of the processed sources declared this entry-point name. -/
def genFilesForEntry (rootPackageName : String) (existing : List String)
    (entryPointPackageName : String) (data : ModuleData) : List GenFile :=
  let entryPointName := strSubstr entryPointPackageName (rootPackageName.length + 1)
  if entryPointName = "" then []
  else
    (if truthy data.metadata then
       [GenFile.metadataReexport entryPointName entryPointPackageName]
     else []) ++
    [GenFile.typingsReexport entryPointName] ++
    (if existing.contains entryPointPackageName then []
     else [GenFile.entryPointPackageJson entryPointName entryPointPackageName])

/-- The whole secondary-entry-point loop over the modules manifest. -/
def generateEntryPointFiles (rootPackageName : String) (existing : List String)
    (mm : ModulesManifest) : List GenFile :=
  mm.foldl (fun acc p => acc ++ genFilesForEntry rootPackageName existing p.1 p.2) []

/-! ### Concrete fixtures for witnesses and counterexamples -/

/-- A modules manifest whose single entry has guessed paths. -/
def mmGuessed : ModulesManifest :=
  [("@x/a", ⟨"bazel-bin/x/a/index.js", "bazel-bin/x/a/index.d.ts", none, true⟩)]

/-- A modules manifest whose single entry has explicitly configured paths
(`guessedPaths` false). -/
def mmPlain : ModulesManifest :=
  [("@x/a", ⟨"bazel-bin/x/a/index.js", "bazel-bin/x/a/index.d.ts", none, false⟩)]

/-- A manifest that explicitly declares the format field `main`. -/
def pkgExplicit : Manifest := [("name", "@x/a"), ("main", "./index.js")]

/-- A manifest with no format fields, one extra field. -/
def pkgPlain : Manifest := [("name", "@x/a"), ("sideEffects", "false")]

/-- A module entry carrying a metadata path. -/
def dataHttp : ModuleData :=
  ⟨"bazel-bin/packages/common/http/http.js",
   "bazel-bin/packages/common/http/http.d.ts",
   some "bazel-bin/packages/common/http/http.metadata.json", false⟩

/-- Sources whose manifest names are all nonempty; the unique shortest name
is the second one. -/
def srcsRootW : List SrcFile :=
  [⟨"packages/animations/package.json", "", [("name", "@angular/animations")]⟩,
   ⟨"packages/core/package.json", "", [("name", "@angular/core")]⟩,
   ⟨"packages/core/http/package.json", "", [("name", "@angular/core/http")]⟩]

/-- Sources whose first manifest name is the empty string. -/
def srcsRootC : List SrcFile :=
  [⟨"packages/empty/package.json", "", [("name", "")]⟩,
   ⟨"packages/z/package.json", "", [("name", "zz")]⟩]

/-! ### Auxiliary lemmas -/

theorem data_append (s t : String) : (s ++ t).data = s.data ++ t.data := by
  cases s
  cases t
  rfl

theorem hasBackslash_normalizeSeparators (s : String) :
    hasBackslash (normalizeSeparators s) = false := by
  have h : ∀ l : List Char,
      (l.map (fun c => if c = '\\' then '/' else c)).any (fun c => c == '\\') = false := by
    intro l
    induction l with
    | nil => rfl
    | cons c t ih =>
      simp only [List.map_cons, List.any_cons, ih, Bool.or_false]
      by_cases h1 : c = '\\'
      · rw [if_pos h1]
        rfl
      · rw [if_neg h1]
        exact beq_eq_false_iff_ne.mpr h1
  exact h s.data

theorem hasBackslash_append (s t : String) :
    hasBackslash (s ++ t) = (hasBackslash s || hasBackslash t) := by
  show (s ++ t).data.any _ = _
  rw [data_append, List.any_append]
  rfl

theorem strSubstr_root_append (root rest : String) :
    strSubstr (root ++ "/" ++ rest) (root.length + 1) = rest := by
  show strOfChars (((root ++ "/") ++ rest).data.drop (root.length + 1)) = rest
  rw [data_append, data_append]
  have hlen : (root.data ++ "/".data).length = root.length + 1 := by
    rw [List.length_append]
    rfl
  rw [← hlen, List.drop_left]
  rfl

theorem strSubstr_self_empty (root : String) : strSubstr root (root.length + 1) = "" := by
  show strOfChars (root.data.drop (root.length + 1)) = ""
  have h : root.data.length ≤ root.length + 1 := Nat.le_succ _
  rw [List.drop_eq_nil_of_le h]
  rfl

theorem findq_cons_pos (a : String × String) (t : List (String × String)) (kq : String)
    (h : (a.1 == kq) = true) :
    (a :: t).find? (fun p => p.1 == kq) = some a :=
  List.find?_cons_of_pos _ h

theorem findq_cons_neg (a : String × String) (t : List (String × String)) (kq : String)
    (h : ¬ (a.1 == kq) = true) :
    (a :: t).find? (fun p => p.1 == kq) = t.find? (fun p => p.1 == kq) :=
  List.find?_cons_of_neg _ h

theorem find?_mapSet_ne (m : Manifest) (k v kq : String) (h : ¬ kq = k) :
    (m.map (fun p => if p.1 == k then (k, v) else p)).find? (fun p => p.1 == kq)
      = m.find? (fun p => p.1 == kq) := by
  have hkq : ((k == kq)) = false := beq_eq_false_iff_ne.mpr (fun e => h e.symm)
  induction m with
  | nil => rfl
  | cons a t ih =>
    rw [List.map_cons]
    by_cases hak : (a.1 == k) = true
    · have ha : a.1 = k := eq_of_beq hak
      rw [if_pos hak]
      rw [findq_cons_neg (k, v) _ kq (by simp [hkq])]
      rw [findq_cons_neg a t kq (by simp [ha, hkq])]
      exact ih
    · rw [if_neg hak]
      by_cases haq : (a.1 == kq) = true
      · rw [findq_cons_pos a _ kq haq, findq_cons_pos a t kq haq]
      · rw [findq_cons_neg a _ kq haq, findq_cons_neg a t kq haq]
        exact ih

theorem find?_append_last_ne (m : Manifest) (k v kq : String) (h : ¬ kq = k) :
    (m ++ [(k, v)]).find? (fun p => p.1 == kq) = m.find? (fun p => p.1 == kq) := by
  have hkq : ((k == kq)) = false := beq_eq_false_iff_ne.mpr (fun e => h e.symm)
  induction m with
  | nil =>
    rw [List.nil_append]
    rw [findq_cons_neg (k, v) [] kq (by simp [hkq])]
  | cons a t ih =>
    rw [List.cons_append]
    by_cases haq : (a.1 == kq) = true
    · rw [findq_cons_pos a _ kq haq, findq_cons_pos a t kq haq]
    · rw [findq_cons_neg a _ kq haq, findq_cons_neg a t kq haq]
      exact ih

theorem find?_mapSet_self (m : Manifest) (k v : String)
    (hm : m.any (fun p => p.1 == k) = true) :
    (m.map (fun p => if p.1 == k then (k, v) else p)).find? (fun p => p.1 == k)
      = some (k, v) := by
  induction m with
  | nil => cases hm
  | cons a t ih =>
    rw [List.map_cons]
    by_cases hak : (a.1 == k) = true
    · rw [if_pos hak]
      rw [findq_cons_pos (k, v) _ k (by simp)]
    · rw [if_neg hak]
      rw [findq_cons_neg a _ k hak]
      apply ih
      rw [List.any_cons] at hm
      simpa [hak] using hm

theorem find?_append_last_self (m : Manifest) (k v : String)
    (hm : m.any (fun p => p.1 == k) = false) :
    (m ++ [(k, v)]).find? (fun p => p.1 == k) = some (k, v) := by
  induction m with
  | nil =>
    rw [List.nil_append]
    rw [findq_cons_pos (k, v) [] k (by simp)]
  | cons a t ih =>
    rw [List.any_cons, Bool.or_eq_false_iff] at hm
    rw [List.cons_append]
    rw [findq_cons_neg a _ k (by simp [hm.1])]
    exact ih hm.2

theorem getField_setField_ne (m : Manifest) (k v kq : String) (h : ¬ kq = k) :
    getField (setField m k v) kq = getField m kq := by
  unfold getField setField
  split
  · rw [find?_mapSet_ne m k v kq h]
  · rw [find?_append_last_ne m k v kq h]

theorem getField_setField_self (m : Manifest) (k v : String) :
    getField (setField m k v) k = some v := by
  unfold getField setField
  split
  · next hm =>
      rw [find?_mapSet_self m k v hm]
      rfl
  · next hm =>
      rw [find?_append_last_self m k v (by simp only [Bool.not_eq_true] at hm; exact hm)]
      rfl

theorem processSrc_errorHasOccured (binDir genfilesDir srcDir : String)
    (mm : ModulesManifest) (st : SrcsState) (src : SrcFile) :
    (processSrc binDir genfilesDir srcDir mm st src).errorHasOccured
      = (st.errorHasOccured
          || (strIncludes src.path binDir || strIncludes src.path genfilesDir)) := by
  unfold processSrc
  split
  · rfl
  · rfl

theorem processSrc_writes_fst (binDir genfilesDir srcDir : String)
    (mm : ModulesManifest) (st : SrcsState) (src : SrcFile) :
    ((processSrc binDir genfilesDir srcDir mm st src).writes).map Prod.fst
      = st.writes.map Prod.fst ++ [src.path] := by
  unfold processSrc
  split
  · simp
  · simp

theorem processSrc_root (binDir genfilesDir srcDir : String)
    (mm : ModulesManifest) (st : SrcsState) (src : SrcFile) :
    (processSrc binDir genfilesDir srcDir mm st src).rootPackageName
      = (if pathBasename src.path == "package.json"
         then rootStep st.rootPackageName ((getField src.parsed "name").getD "")
         else st.rootPackageName) := by
  unfold processSrc
  by_cases h : (pathBasename src.path == "package.json") = true
  · rw [if_pos h, if_pos h]
  · rw [if_neg h, if_neg h]

theorem processSrcs_foldl_error (binDir genfilesDir srcDir : String)
    (mm : ModulesManifest) (srcs : List SrcFile) (st : SrcsState) :
    (srcs.foldl (processSrc binDir genfilesDir srcDir mm) st).errorHasOccured
      = (st.errorHasOccured
          || srcs.any (fun f => strIncludes f.path binDir || strIncludes f.path genfilesDir)) := by
  induction srcs generalizing st with
  | nil => simp
  | cons x t ih =>
    rw [List.foldl_cons, ih, processSrc_errorHasOccured, List.any_cons, Bool.or_assoc]

theorem processSrcs_foldl_writes (binDir genfilesDir srcDir : String)
    (mm : ModulesManifest) (srcs : List SrcFile) (st : SrcsState) :
    ((srcs.foldl (processSrc binDir genfilesDir srcDir mm) st).writes).map Prod.fst
      = st.writes.map Prod.fst ++ srcs.map SrcFile.path := by
  induction srcs generalizing st with
  | nil => simp
  | cons x t ih =>
    rw [List.foldl_cons, ih, processSrc_writes_fst]
    simp

theorem processSrcs_foldl_root (binDir genfilesDir srcDir : String)
    (mm : ModulesManifest) (srcs : List SrcFile) (st : SrcsState) :
    (srcs.foldl (processSrc binDir genfilesDir srcDir mm) st).rootPackageName
      = (manifestNames srcs).foldl rootStep st.rootPackageName := by
  induction srcs generalizing st with
  | nil => rfl
  | cons x t ih =>
    rw [List.foldl_cons, ih, processSrc_root]
    by_cases h : (pathBasename x.path == "package.json") = true
    · simp [manifestNames, List.filter_cons, h, List.foldl_cons]
    · simp [manifestNames, List.filter_cons, h]

theorem rootStep_pos (r n : String) (h : r = "" ∨ n.length < r.length) :
    rootStep r n = n := by
  unfold rootStep
  rw [if_pos h]

theorem rootFold_result_mem (l : List String) (r : String) :
    l.foldl rootStep r = r ∨ l.foldl rootStep r ∈ l := by
  induction l generalizing r with
  | nil => exact Or.inl rfl
  | cons n t ih =>
    rw [List.foldl_cons]
    rcases ih (rootStep r n) with h | h
    · rw [h]
      unfold rootStep
      split
      · exact Or.inr (List.mem_cons_self _ _)
      · exact Or.inl rfl
    · exact Or.inr (List.mem_cons_of_mem _ h)

theorem rootFold_keeps_min (l : List String) (r : String) (hr : ¬ r = "")
    (h : ∀ m ∈ l, r.length ≤ m.length) :
    l.foldl rootStep r = r := by
  induction l with
  | nil => rfl
  | cons n t ih =>
    rw [List.foldl_cons]
    have h1 : rootStep r n = r := by
      unfold rootStep
      rw [if_neg]
      rintro (e | e)
      · exact hr e
      · exact absurd e (Nat.not_lt.mpr (h n (List.mem_cons_self _ _)))
    rw [h1]
    exact ih (fun m hm => h m (List.mem_cons_of_mem _ hm))

/-! ### Claim C1 -/

/-- Claim C1 (corrected): an input path that matches none of the three tree
roots does not make `writeFileFromInputPath` fail; the classification falls
through to the source tree unconditionally, so every input path receives an
output location.  The amended claim: a path containing neither the
intermediate-build dir nor the generated-files dir is classified into
`srcDir`, even when it does not contain `srcDir`. -/
theorem classifyRoot_defaults_to_srcDir (binDir genfilesDir srcDir p : String)
    (hb : strIncludes p binDir = false) (hg : strIncludes p genfilesDir = false)
    (hs : strIncludes p srcDir = false) :
    classifyRoot binDir genfilesDir srcDir p = srcDir := by
  unfold classifyRoot
  rw [hb, hg]
  simp

/-- Witness for C1: a concrete path matching none of the three roots is
still classified, into the source tree. -/
theorem classifyRoot_defaults_to_srcDir_witness :
    strIncludes "sandbox/lib.js" "bazel-bin/pkg" = false ∧
    strIncludes "sandbox/lib.js" "bazel-genfiles/pkg" = false ∧
    strIncludes "sandbox/lib.js" "packages/core" = false ∧
    classifyRoot "bazel-bin/pkg" "bazel-genfiles/pkg" "packages/core" "sandbox/lib.js"
      = "packages/core" :=
  ⟨by decide, by decide, by decide,
   classifyRoot_defaults_to_srcDir _ _ _ _ (by decide) (by decide) (by decide)⟩

/-- Counterexample to C1 as stated: a concrete input path that matches none
of the three tree roots for which the operation still resolves a root and
produces an output location instead of failing. -/
theorem classifyRoot_no_fatal_counterexample :
    strIncludes "external/other/file.js" "bazel-bin/packages/common" = false ∧
    strIncludes "external/other/file.js" "bazel-genfiles/packages/common" = false ∧
    strIncludes "external/other/file.js" "packages/common" = false ∧
    classifyRoot "bazel-bin/packages/common" "bazel-genfiles/packages/common"
      "packages/common" "external/other/file.js" = "packages/common" ∧
    writeFileFromInputPath "out" "bazel-bin/packages/common"
      "bazel-genfiles/packages/common" "packages/common" "external/other/file.js"
      = "../external/other/file.js" := by
  decide

/-! ### Claim C2 -/

/-- Claim C2 (corrected, amended form): the skip of amendment for a
pre-existing manifest with explicit format fields additionally requires the
module entry to have guessed paths; under `guessedPaths = true` the
manifest is returned unmodified with a diagnostic. -/
theorem amendPackageJson_guessed_explicit_skips (mm : ModulesManifest)
    (srcDir binDir packageJson : String) (parsedPackage : Manifest) (d : ModuleData)
    (hd : lookupModule mm ((getField parsedPackage "name").getD "") = some d)
    (hg : d.guessedPaths = true)
    (hx : hasExplicitFormatProperties parsedPackage = true) :
    amendPackageJson mm srcDir binDir packageJson parsedPackage false
      = ⟨parsedPackage, true⟩ := by
  simp only [amendPackageJson, hd]
  rw [if_pos (by rw [hg, hx]; rfl)]

/-- Witness for C2: a concrete pre-existing manifest with an explicit
`main` whose module entry has guessed paths is returned unmodified. -/
theorem amendPackageJson_guessed_explicit_skips_witness :
    lookupModule mmGuessed ((getField pkgExplicit "name").getD "")
      = some (⟨"bazel-bin/x/a/index.js", "bazel-bin/x/a/index.d.ts", none, true⟩ : ModuleData) ∧
    (⟨"bazel-bin/x/a/index.js", "bazel-bin/x/a/index.d.ts", none, true⟩ : ModuleData).guessedPaths
      = true ∧
    hasExplicitFormatProperties pkgExplicit = true ∧
    amendPackageJson mmGuessed "packages/x" "bazel-bin/x" "x/a/package.json" pkgExplicit false
      = ⟨pkgExplicit, true⟩ :=
  ⟨by decide, by decide, by decide,
   amendPackageJson_guessed_explicit_skips mmGuessed "packages/x" "bazel-bin/x"
     "x/a/package.json" pkgExplicit
     ⟨"bazel-bin/x/a/index.js", "bazel-bin/x/a/index.d.ts", none, true⟩
     (by decide) (by decide) (by decide)⟩

/-- Counterexample to C2 as stated: a pre-existing manifest that declares
the format field `main`, whose module entry exists but has
`guessedPaths = false`; amendment is not skipped and format fields are
inserted and overwritten. -/
theorem amendPackageJson_explicit_not_skipped_counterexample :
    hasExplicitFormatProperties pkgExplicit = true ∧
    getField pkgExplicit "fesm2015" = none ∧
    getField (amendPackageJson mmPlain "packages/x" "bazel-bin/x" "x/a/package.json"
        pkgExplicit false).content "fesm2015" = some "./fesm2015/a.js" ∧
    getField (amendPackageJson mmPlain "packages/x" "bazel-bin/x" "x/a/package.json"
        pkgExplicit false).content "main" = some "./bundles/a.umd.js" ∧
    getField pkgExplicit "main" = some "./index.js" := by
  decide

/-! ### Claim C3 -/

/-- Claim C3 (corrected, amended form): the values `getBundleName` actually
computes on the three spec examples: the scope segment is dropped entirely
(not joined into the basename), the number of up-levels is the segment
count after scope-stripping minus one, and the root package gets a dot
prefix. -/
theorem getBundleName_examples :
    getBundleName "@scope/foo/bar" "bundles" = "../bundles/foo-bar.umd.js" ∧
    getBundleName "@angular/common/http" "bundles" = "../bundles/common-http.umd.js" ∧
    getBundleName "@angular/common" "bundles" = "./bundles/common.umd.js" := by
  decide

/-- Counterexample to C3 as stated: the first spec example does not hold,
the scope segment never appears in the bundle basename. -/
theorem getBundleName_examples_counterexample :
    ¬ getBundleName "@scope/foo/bar" "bundles" = "../bundles/scope-foo-bar.umd.js" := by
  decide

/-! ### Claim C4 -/

/-- Claim C4 (confirmed): `srcDirRelative` never returns a backslash (the
computed relative path is normalized to forward slashes), and the result is
the normalized relative path itself when it starts with two dots, and that
path prefixed with a dot-slash otherwise. -/
theorem srcDirRelative_forward_slashes_dot_slash (srcDir binDir fromPath file : String) :
    hasBackslash (srcDirRelative srcDir binDir fromPath file) = false ∧
    srcDirRelative srcDir binDir fromPath file =
      (if strStartsWith (srcDirRelativeRaw srcDir binDir fromPath file) ".." then
        srcDirRelativeRaw srcDir binDir fromPath file
      else "./" ++ srcDirRelativeRaw srcDir binDir fromPath file) := by
  have hraw : hasBackslash (srcDirRelativeRaw srcDir binDir fromPath file) = false :=
    hasBackslash_normalizeSeparators _
  constructor
  · simp only [srcDirRelative]
    split
    · exact hraw
    · rw [hasBackslash_append, hraw, Bool.or_false]
      rfl
  · rfl

/-! ### Claim C5 -/

/-- Claim C5 (confirmed): when the declared name of the manifest has no
entry in the modules manifest, `amendPackageJson` emits a diagnostic and
returns the parsed manifest unmodified; the function returns normally, so
processing continues. -/
theorem amendPackageJson_missing_module (mm : ModulesManifest)
    (srcDir binDir packageJson : String) (parsedPackage : Manifest)
    (isGeneratedPackageJson : Bool)
    (h : lookupModule mm ((getField parsedPackage "name").getD "") = none) :
    amendPackageJson mm srcDir binDir packageJson parsedPackage isGeneratedPackageJson
      = ⟨parsedPackage, true⟩ := by
  simp only [amendPackageJson, h]

/-- Witness for C5: a manifest whose name is absent from a concrete modules
manifest comes back unmodified, with the diagnostic flag set. -/
theorem amendPackageJson_missing_module_witness :
    lookupModule mmPlain ((getField [("name", "@angular/compiler")] "name").getD "") = none ∧
    amendPackageJson mmPlain "packages/compiler" "bazel-bin/packages/compiler"
        "packages/compiler/package.json" [("name", "@angular/compiler")] false
      = ⟨[("name", "@angular/compiler")], true⟩ :=
  ⟨by decide,
   amendPackageJson_missing_module mmPlain "packages/compiler" "bazel-bin/packages/compiler"
     "packages/compiler/package.json" [("name", "@angular/compiler")] false (by decide)⟩

/-! ### Claim C6 -/

/-- Claim C6 (confirmed): the exit status of `main` is zero exactly when no
source-list entry contains the intermediate-build dir or the
generated-files dir, and one otherwise; in every case the loop still
performs one write per source entry, in order (the error is deferred, not
aborting). -/
theorem mainExitCode_deferred_error (binDir genfilesDir srcDir : String)
    (mm : ModulesManifest) (srcs : List SrcFile) :
    mainExitCode binDir genfilesDir srcDir mm srcs
      = (if srcs.any (fun f => strIncludes f.path binDir || strIncludes f.path genfilesDir)
         then 1 else 0) ∧
    ((processSrcs binDir genfilesDir srcDir mm srcs).writes).map Prod.fst
      = srcs.map SrcFile.path := by
  constructor
  · unfold mainExitCode processSrcs
    rw [processSrcs_foldl_error]
    rfl
  · unfold processSrcs
    rw [processSrcs_foldl_writes]
    rfl

/-! ### Claim C7 -/

/-- Claim C7 (confirmed): for a module entry whose name strictly extends
the root package name by a slash and a nonempty remainder, the loop body
produces a metadata re-export exactly when the entry has a truthy metadata
path, always produces a typings re-export, and synthesizes an entry-point
manifest exactly when no processed source declared that name; an entry
whose name equals the root produces nothing. -/
theorem genFilesForEntry_spec (root rest : String) (existing : List String)
    (data : ModuleData) (hrest : ¬ rest = "") :
    (GenFile.metadataReexport rest (root ++ "/" ++ rest)
        ∈ genFilesForEntry root existing (root ++ "/" ++ rest) data
      ↔ truthy data.metadata = true) ∧
    GenFile.typingsReexport rest ∈ genFilesForEntry root existing (root ++ "/" ++ rest) data ∧
    (GenFile.entryPointPackageJson rest (root ++ "/" ++ rest)
        ∈ genFilesForEntry root existing (root ++ "/" ++ rest) data
      ↔ existing.contains (root ++ "/" ++ rest) = false) ∧
    genFilesForEntry root existing root data = [] := by
  simp only [genFilesForEntry, strSubstr_root_append, strSubstr_self_empty]
  rw [if_neg hrest]
  rw [if_pos trivial]
  refine ⟨?_, ?_, ?_, rfl⟩
  · cases h1 : truthy data.metadata <;>
      cases h2 : existing.contains (root ++ "/" ++ rest) <;>
      simp [h1, h2]
  · cases h1 : truthy data.metadata <;>
      cases h2 : existing.contains (root ++ "/" ++ rest) <;>
      simp [h1, h2]
  · cases h1 : truthy data.metadata <;>
      cases h2 : existing.contains (root ++ "/" ++ rest) <;>
      simp [h1, h2]

/-- Witness for C7: concrete secondary entry point `@angular/common/http`
under root `@angular/common`, with metadata present and a manifest already
existing for the entry point. -/
theorem genFilesForEntry_spec_witness :
    (¬ ("http" : String) = "") ∧
    ((GenFile.metadataReexport "http" ("@angular/common" ++ "/" ++ "http")
        ∈ genFilesForEntry "@angular/common" ["@angular/common"]
            ("@angular/common" ++ "/" ++ "http") dataHttp
      ↔ truthy dataHttp.metadata = true) ∧
    GenFile.typingsReexport "http"
        ∈ genFilesForEntry "@angular/common" ["@angular/common"]
            ("@angular/common" ++ "/" ++ "http") dataHttp ∧
    (GenFile.entryPointPackageJson "http" ("@angular/common" ++ "/" ++ "http")
        ∈ genFilesForEntry "@angular/common" ["@angular/common"]
            ("@angular/common" ++ "/" ++ "http") dataHttp
      ↔ ["@angular/common"].contains ("@angular/common" ++ "/" ++ "http") = false) ∧
    genFilesForEntry "@angular/common" ["@angular/common"] "@angular/common" dataHttp = []) :=
  ⟨by decide,
   genFilesForEntry_spec "@angular/common" "http" ["@angular/common"] dataHttp (by decide)⟩

/-! ### Claim C8 -/

theorem copyResult_outFile_mk (a : String) (m s : Option (String × String)) :
    CopyResult.outFile ⟨a, m, s⟩ = a := rfl

theorem copyResult_moved_mk (a : String) (m s : Option (String × String)) :
    CopyResult.moved ⟨a, m, s⟩ = m := rfl

theorem copyResult_sed_mk (a : String) (m s : Option (String × String)) :
    CopyResult.sed ⟨a, m, s⟩ = s := rfl

theorem copyFile_outFile (file baseDir relative : String) :
    (copyFile file baseDir relative).outFile
      = pathJoin (pathJoin baseDir relative) (pathBasename (mjsToJs file)) := by
  unfold copyFile
  dsimp only
  split
  · rw [copyResult_outFile_mk]
  · rw [copyResult_outFile_mk]

/-- Claim C8 (confirmed): when the output name of a copied file contains
the double-underscore escape, the file just copied to `outFile` is moved to
the path obtained by splitting the output basename on the double underscore
and re-joining the parts as subdirectories, and when the output name is a
`.js` file the source-map reference `<old basename>.map` inside it is
rewritten to `<new basename>.map`. -/
theorem copyFile_unescapes_double_underscore (file baseDir relative : String)
    (hmjs : strEndsWith file ".mjs" = false)
    (hesc : strIncludes (copyFile file baseDir relative).outFile "__" = true) :
    (copyFile file baseDir relative).moved =
      some ((copyFile file baseDir relative).outFile,
        pathJoinAll (pathJoin baseDir relative ::
          strSplit (pathBasename ((copyFile file baseDir relative).outFile)) "__")) ∧
    (copyFile file baseDir relative).sed =
      (if strEndsWith ((copyFile file baseDir relative).outFile) ".js" then
        some (pathBasename file ++ ".map",
          pathBasename (pathJoinAll (pathJoin baseDir relative ::
            strSplit (pathBasename ((copyFile file baseDir relative).outFile)) "__")) ++ ".map")
      else none) := by
  have hm : mjsToJs file = file := by
    simp [mjsToJs, hmjs]
  have hout : (copyFile file baseDir relative).outFile
      = pathJoin (pathJoin baseDir relative) (pathBasename file) := by
    rw [copyFile_outFile, hm]
  rw [hout] at hesc
  rw [hout]
  unfold copyFile
  dsimp only
  rw [hm]
  rw [if_pos hesc]
  rw [copyResult_moved_mk, copyResult_sed_mk]
  exact ⟨rfl, rfl⟩

/-- Witness for C8: the spec example `http__testing.js` lands at
`http/testing.js` under the destination directory, and the source-map
reference is rewritten from `http__testing.js.map` to `testing.js.map`. -/
theorem copyFile_unescapes_double_underscore_witness :
    strEndsWith "http__testing.js" ".mjs" = false ∧
    strIncludes (copyFile "http__testing.js" "out" ".").outFile "__" = true ∧
    (copyFile "http__testing.js" "out" ".").outFile = "out/http__testing.js" ∧
    (copyFile "http__testing.js" "out" ".").moved
      = some ("out/http__testing.js", "out/http/testing.js") ∧
    (copyFile "http__testing.js" "out" ".").sed
      = some ("http__testing.js.map", "testing.js.map") ∧
    ((copyFile "http__testing.js" "out" ".").moved =
      some ((copyFile "http__testing.js" "out" ".").outFile,
        pathJoinAll (pathJoin "out" "." ::
          strSplit (pathBasename ((copyFile "http__testing.js" "out" ".").outFile)) "__")) ∧
    (copyFile "http__testing.js" "out" ".").sed =
      (if strEndsWith ((copyFile "http__testing.js" "out" ".").outFile) ".js" then
        some (pathBasename "http__testing.js" ++ ".map",
          pathBasename (pathJoinAll (pathJoin "out" "." ::
            strSplit (pathBasename ((copyFile "http__testing.js" "out" ".").outFile)) "__"))
            ++ ".map")
      else none)) :=
  ⟨by decide, by decide, by decide, by decide, by decide,
   copyFile_unescapes_double_underscore "http__testing.js" "out" "." (by decide) (by decide)⟩

/-! ### Claim C9 -/

/-- Claim C9 (confirmed): when `amendPackageJson` performs amendment, the
only fields it writes are the six known format fields; every other field,
the name included, is read back unchanged, and the six format fields are
all present in the output, so nothing is deleted. -/
theorem amendPackageJson_frame (mm : ModulesManifest)
    (srcDir binDir packageJson : String) (parsedPackage : Manifest)
    (isGeneratedPackageJson : Bool) (d : ModuleData) (k : String)
    (hd : lookupModule mm ((getField parsedPackage "name").getD "") = some d)
    (hskip : (d.guessedPaths && !isGeneratedPackageJson
        && hasExplicitFormatProperties parsedPackage) = false)
    (hk : ¬ k ∈ knownFormatPackageJsonFields) :
    getField (amendPackageJson mm srcDir binDir packageJson parsedPackage
        isGeneratedPackageJson).content k = getField parsedPackage k ∧
    (getField (amendPackageJson mm srcDir binDir packageJson parsedPackage
        isGeneratedPackageJson).content "main").isSome = true ∧
    (getField (amendPackageJson mm srcDir binDir packageJson parsedPackage
        isGeneratedPackageJson).content "fesm2015").isSome = true ∧
    (getField (amendPackageJson mm srcDir binDir packageJson parsedPackage
        isGeneratedPackageJson).content "esm2015").isSome = true ∧
    (getField (amendPackageJson mm srcDir binDir packageJson parsedPackage
        isGeneratedPackageJson).content "typings").isSome = true ∧
    (getField (amendPackageJson mm srcDir binDir packageJson parsedPackage
        isGeneratedPackageJson).content "module").isSome = true ∧
    (getField (amendPackageJson mm srcDir binDir packageJson parsedPackage
        isGeneratedPackageJson).content "es2015").isSome = true := by
  have hks : ¬ k = "main" ∧ ¬ k = "fesm2015" ∧ ¬ k = "esm2015" ∧ ¬ k = "typings"
      ∧ ¬ k = "module" ∧ ¬ k = "es2015" := by
    simp only [knownFormatPackageJsonFields, List.mem_cons, List.not_mem_nil, or_false] at hk
    push_neg at hk
    exact hk
  obtain ⟨h1, h2, h3, h4, h5, h6⟩ := hks
  simp only [amendPackageJson, hd]
  rw [if_neg (by rw [hskip]; exact Bool.false_ne_true)]
  refine ⟨?_, ?_, ?_, ?_, ?_, ?_, ?_⟩
  · rw [getField_setField_ne _ _ _ _ h6, getField_setField_ne _ _ _ _ h5,
      getField_setField_ne _ _ _ _ h4, getField_setField_ne _ _ _ _ h3,
      getField_setField_ne _ _ _ _ h2, getField_setField_ne _ _ _ _ h1]
  · rw [getField_setField_ne _ _ _ _ (by decide : ¬ "main" = "es2015"),
      getField_setField_ne _ _ _ _ (by decide : ¬ "main" = "module"),
      getField_setField_ne _ _ _ _ (by decide : ¬ "main" = "typings"),
      getField_setField_ne _ _ _ _ (by decide : ¬ "main" = "esm2015"),
      getField_setField_ne _ _ _ _ (by decide : ¬ "main" = "fesm2015"),
      getField_setField_self]
    rfl
  · rw [getField_setField_ne _ _ _ _ (by decide : ¬ "fesm2015" = "es2015"),
      getField_setField_ne _ _ _ _ (by decide : ¬ "fesm2015" = "module"),
      getField_setField_ne _ _ _ _ (by decide : ¬ "fesm2015" = "typings"),
      getField_setField_ne _ _ _ _ (by decide : ¬ "fesm2015" = "esm2015"),
      getField_setField_self]
    rfl
  · rw [getField_setField_ne _ _ _ _ (by decide : ¬ "esm2015" = "es2015"),
      getField_setField_ne _ _ _ _ (by decide : ¬ "esm2015" = "module"),
      getField_setField_ne _ _ _ _ (by decide : ¬ "esm2015" = "typings"),
      getField_setField_self]
    rfl
  · rw [getField_setField_ne _ _ _ _ (by decide : ¬ "typings" = "es2015"),
      getField_setField_ne _ _ _ _ (by decide : ¬ "typings" = "module"),
      getField_setField_self]
    rfl
  · rw [getField_setField_ne _ _ _ _ (by decide : ¬ "module" = "es2015"),
      getField_setField_self]
    rfl
  · rw [getField_setField_self]
    rfl

/-- Witness for C9: amending a concrete manifest carrying the non-format
field `sideEffects` leaves that field unchanged and fills in all six
format fields. -/
theorem amendPackageJson_frame_witness :
    lookupModule mmPlain ((getField pkgPlain "name").getD "")
      = some (⟨"bazel-bin/x/a/index.js", "bazel-bin/x/a/index.d.ts", none, false⟩ : ModuleData) ∧
    ((⟨"bazel-bin/x/a/index.js", "bazel-bin/x/a/index.d.ts", none, false⟩ : ModuleData).guessedPaths
        && !false && hasExplicitFormatProperties pkgPlain) = false ∧
    (¬ ("sideEffects" : String) ∈ knownFormatPackageJsonFields) ∧
    (getField (amendPackageJson mmPlain "packages/x" "bazel-bin/x" "x/a/package.json" pkgPlain
        false).content "sideEffects" = getField pkgPlain "sideEffects" ∧
    (getField (amendPackageJson mmPlain "packages/x" "bazel-bin/x" "x/a/package.json" pkgPlain
        false).content "main").isSome = true ∧
    (getField (amendPackageJson mmPlain "packages/x" "bazel-bin/x" "x/a/package.json" pkgPlain
        false).content "fesm2015").isSome = true ∧
    (getField (amendPackageJson mmPlain "packages/x" "bazel-bin/x" "x/a/package.json" pkgPlain
        false).content "esm2015").isSome = true ∧
    (getField (amendPackageJson mmPlain "packages/x" "bazel-bin/x" "x/a/package.json" pkgPlain
        false).content "typings").isSome = true ∧
    (getField (amendPackageJson mmPlain "packages/x" "bazel-bin/x" "x/a/package.json" pkgPlain
        false).content "module").isSome = true ∧
    (getField (amendPackageJson mmPlain "packages/x" "bazel-bin/x" "x/a/package.json" pkgPlain
        false).content "es2015").isSome = true) :=
  ⟨by decide, by decide, by decide,
   amendPackageJson_frame mmPlain "packages/x" "bazel-bin/x" "x/a/package.json" pkgPlain false
     ⟨"bazel-bin/x/a/index.js", "bazel-bin/x/a/index.d.ts", none, false⟩ "sideEffects"
     (by decide) (by decide) (by decide)⟩

/-! ### Claim C10 -/

/-- Claim C10 (corrected, amended form): provided every manifest name
encountered in source-list order is nonempty, the loop selects the first
name of minimal length: the name at a position such that every earlier name
is strictly longer and every later name is at least as long.  The
nonemptiness proviso is forced by the JS truthiness test: an empty name
re-triggers the initial-assignment branch on the next iteration. -/
theorem rootPackageName_first_shortest (binDir genfilesDir srcDir : String)
    (mm : ModulesManifest) (srcs : List SrcFile) (l₁ l₂ : List String) (n : String)
    (hne : (manifestNames srcs).all (fun m => !(m == "")) = true)
    (hsplit : manifestNames srcs = l₁ ++ n :: l₂)
    (hbefore : l₁.all (fun m => decide (n.length < m.length)) = true)
    (hafter : l₂.all (fun m => decide (n.length ≤ m.length)) = true) :
    (processSrcs binDir genfilesDir srcDir mm srcs).rootPackageName = n := by
  have hne' : ∀ m ∈ manifestNames srcs, ¬ m = "" := by
    intro m hm
    have hb := List.all_eq_true.mp hne m hm
    simpa using hb
  have hb : ∀ m ∈ l₁, n.length < m.length := by
    intro m hm
    exact of_decide_eq_true (List.all_eq_true.mp hbefore m hm)
  have ha : ∀ m ∈ l₂, n.length ≤ m.length := by
    intro m hm
    exact of_decide_eq_true (List.all_eq_true.mp hafter m hm)
  unfold processSrcs
  rw [processSrcs_foldl_root, hsplit]
  have hinit : initialSrcsState.rootPackageName = "" := rfl
  rw [hinit, List.foldl_append, List.foldl_cons]
  have hstep : rootStep (l₁.foldl rootStep "") n = n := by
    rcases rootFold_result_mem l₁ "" with h | h
    · rw [h]
      exact rootStep_pos "" n (Or.inl rfl)
    · exact rootStep_pos _ n (Or.inr (hb _ h))
  rw [hstep]
  apply rootFold_keeps_min
  · apply hne'
    rw [hsplit]
    exact List.mem_append_right _ (List.mem_cons_self _ _)
  · exact ha

/-- Witness for C10: three nonempty manifest names in source order, whose
unique shortest is the second; the loop selects it. -/
theorem rootPackageName_first_shortest_witness :
    (manifestNames srcsRootW).all (fun m => !(m == "")) = true ∧
    manifestNames srcsRootW
      = ["@angular/animations"] ++ "@angular/core" :: ["@angular/core/http"] ∧
    (["@angular/animations"].all
      (fun m => decide (("@angular/core" : String).length < m.length))) = true ∧
    (["@angular/core/http"].all
      (fun m => decide (("@angular/core" : String).length ≤ m.length))) = true ∧
    (processSrcs "bazel-bin/packages" "bazel-genfiles/packages" "packages" []
        srcsRootW).rootPackageName = "@angular/core" :=
  ⟨by decide, by decide, by decide, by decide,
   rootPackageName_first_shortest "bazel-bin/packages" "bazel-genfiles/packages" "packages" []
     srcsRootW ["@angular/animations"] ["@angular/core/http"] "@angular/core"
     (by decide) (by decide) (by decide) (by decide)⟩

/-- Counterexample to C10 as stated: with the empty string among the
encountered manifest names, the loop keeps `zz` although a strictly
shorter name was encountered first, so the selected name is not of minimal
length and the first minimal name is not kept. -/
theorem rootPackageName_empty_name_counterexample :
    manifestNames srcsRootC = ["", "zz"] ∧
    (processSrcs "bazel-bin/p" "bazel-genfiles/p" "packages/p" [] srcsRootC).rootPackageName
      = "zz" ∧
    ("" : String).length < ("zz" : String).length := by
  decide

end Packager
